import Mathlib

/-!
Verification development for the concept-map core of the Socratic AI tutor:
the graph merge operation (`generateConceptMapUpdate` in
`src/services/geminiService.ts`) and the force-directed layout engine
(`getNodeDimensions`, `getIntersection`, `useForceLayout`/`simulate` in
`src/components/ConceptBuilder.tsx`).

Numbers are modelled as real numbers.  Optional numeric fields (`vx?`, `vy?`)
are modelled as always-present reals defaulting to `0`: the source only ever
reads them through `(vx || 0)`, so a missing value and `0` behave identically.
`Math.random()` draws are passed in as explicit real parameters.
-/

namespace ConceptMapCore

/-- `ConceptNode` from `types.ts`: id, label, position and velocity. -/
structure ConceptNode where
  id : String
  label : String
  x : ℝ
  y : ℝ
  vx : ℝ := 0
  vy : ℝ := 0

/-- `ConceptLink` from `types.ts`: endpoints are node *labels*, plus an
optional link label. -/
structure ConceptLink where
  source : String
  target : String
  label : Option String := none
  deriving DecidableEq

/-- `ConceptMap` from `types.ts`. -/
structure ConceptMap where
  nodes : List ConceptNode
  links : List ConceptLink

/-- Candidate link of an LLM proposal (an entry of `data.newLinks` in
`generateConceptMapUpdate`).  Candidate nodes are proposed as bare labels
(`data.newNodes` entries carry only a `label` field). -/
structure CandLink where
  source : String
  target : String
  label : Option String := none
  deriving DecidableEq

/-- JS `String.prototype.toLowerCase`, modelled character-wise.  (The
library function `String.toLower` computes the same string but its
implementation does not reduce inside the kernel, so concrete instances
could not be checked with it.) -/
def toLowerCase (s : String) : String := ⟨s.data.map Char.toLower⟩

/-- The node record the node-merge loop appends for a fresh label
(`geminiService.ts` lines 226-231): id is the label verbatim, position is a
placeholder later replaced by the layout engine. -/
def mkNode (lab : String) : ConceptNode :=
  { id := lab, label := lab, x := 0, y := 0 }

/-- Node-merge loop of `generateConceptMapUpdate`
(`geminiService.ts` lines 220-233): each candidate label is dropped when some
already-merged node matches it case-insensitively, otherwise a node with
`id = label` and placeholder position `(0, 0)` is appended. -/
def mergeNodes (nodes : List ConceptNode) (newNodeLabels : List String) :
    List ConceptNode :=
  newNodeLabels.foldl
    (fun newNodes lab =>
      if (newNodes.find? fun en =>
          toLowerCase en.label == toLowerCase lab).isSome then
        newNodes
      else
        newNodes ++ [mkNode lab])
    nodes

/-- Link-merge loop of `generateConceptMapUpdate`
(`geminiService.ts` lines 235-252): both endpoints must resolve
case-insensitively against the (already node-merged) node list; the stored
endpoints are the matched nodes' labels; a link whose resolved ordered pair
already exists is dropped. -/
def mergeLinkStep (nodes : List ConceptNode) (acc : List ConceptLink)
    (l : CandLink) : List ConceptLink :=
  match nodes.find? (fun n => toLowerCase n.label == toLowerCase l.source),
        nodes.find? (fun n => toLowerCase n.label == toLowerCase l.target)
    with
  | some sourceNode, some targetNode =>
      let safeSource := sourceNode.label
      let safeTarget := targetNode.label
      if (acc.find? fun el =>
          el.source == safeSource && el.target == safeTarget).isSome then
        acc
      else
        acc ++ [{ source := safeSource, target := safeTarget,
                  label := l.label }]
  | _, _ => acc

def mergeLinks (nodes : List ConceptNode) (links : List ConceptLink)
    (newLinks : List CandLink) : List ConceptLink :=
  newLinks.foldl (mergeLinkStep nodes) links

/-- Step equation: unresolved source drops the candidate link. -/
theorem mergeLinkStep_src_none {nodes : List ConceptNode}
    {acc : List ConceptLink} {l : CandLink}
    (hs : nodes.find?
      (fun n => toLowerCase n.label == toLowerCase l.source) = none) :
    mergeLinkStep nodes acc l = acc := by
  unfold mergeLinkStep
  rw [hs]

/-- Step equation: unresolved target drops the candidate link. -/
theorem mergeLinkStep_tgt_none {nodes : List ConceptNode}
    {acc : List ConceptLink} {l : CandLink} {sn : ConceptNode}
    (hs : nodes.find?
      (fun n => toLowerCase n.label == toLowerCase l.source) = some sn)
    (ht : nodes.find?
      (fun n => toLowerCase n.label == toLowerCase l.target) = none) :
    mergeLinkStep nodes acc l = acc := by
  unfold mergeLinkStep
  rw [hs, ht]

/-- Step equation: both endpoints resolved. -/
theorem mergeLinkStep_some {nodes : List ConceptNode}
    {acc : List ConceptLink} {l : CandLink} {sn tn : ConceptNode}
    (hs : nodes.find?
      (fun n => toLowerCase n.label == toLowerCase l.source) = some sn)
    (ht : nodes.find?
      (fun n => toLowerCase n.label == toLowerCase l.target) = some tn) :
    mergeLinkStep nodes acc l =
      if (acc.find? fun el =>
          el.source == sn.label && el.target == tn.label).isSome then
        acc
      else
        acc ++ [{ source := sn.label, target := tn.label,
                  label := l.label }] := by
  unfold mergeLinkStep
  rw [hs, ht]

/-- Pure merge core of `generateConceptMapUpdate`
(`geminiService.ts` lines 218-254): nodes are merged first, then candidate
links are resolved against the merged node list. -/
def generateConceptMapUpdate (currentMap : ConceptMap)
    (newNodes : List String) (newLinks : List CandLink) : ConceptMap :=
  let nodes := mergeNodes currentMap.nodes newNodes
  { nodes := nodes, links := mergeLinks nodes currentMap.links newLinks }

/-- Folding a whole session of merge calls, starting from a given map. -/
def mergeAll (start : ConceptMap)
    (steps : List (List String × List CandLink)) : ConceptMap :=
  steps.foldl (fun m s => generateConceptMapUpdate m s.1 s.2) start

/-- A generic fold-invariant principle used throughout. -/
theorem foldl_induction {α β : Type} (f : α → β → α) (l : List β) (init : α)
    (P : α → Prop) (h0 : P init)
    (ih : ∀ acc b, b ∈ l → P acc → P (f acc b)) : P (l.foldl f init) := by
  induction l generalizing init with
  | nil => exact h0
  | cons b bs IH =>
      exact IH (f init b) (ih init b (by simp) h0)
        (fun acc x hx => ih acc x (by simp [hx]))

/-- Merging nodes only appends: the previous node list is an initial segment
of the merged one. -/
theorem mergeNodes_append (nodes : List ConceptNode)
    (cands : List String) :
    ∃ t, mergeNodes nodes cands = nodes ++ t := by
  induction cands generalizing nodes with
  | nil => exact ⟨[], by simp [mergeNodes]⟩
  | cons c cs IH =>
      have step : mergeNodes nodes (c :: cs) =
          mergeNodes
            (if (nodes.find? fun en =>
                toLowerCase en.label == toLowerCase c).isSome
             then nodes
             else nodes ++ [mkNode c]) cs := rfl
      by_cases h : (nodes.find? fun en =>
          toLowerCase en.label == toLowerCase c).isSome
      · rw [step, if_pos h]; exact IH nodes
      · rw [step, if_neg h]
        obtain ⟨t, ht⟩ :=
          IH (nodes ++ [mkNode c])
        exact ⟨mkNode c :: t, by simpa using ht⟩

/-- Membership in the node list survives merging. -/
theorem mem_mergeNodes_of_mem {n : ConceptNode} {nodes : List ConceptNode}
    (cands : List String) (h : n ∈ nodes) : n ∈ mergeNodes nodes cands := by
  obtain ⟨t, ht⟩ := mergeNodes_append nodes cands
  rw [ht]
  exact List.mem_append_left _ h

/-- Every stored link's source and target are exactly the label of some node
in the map. -/
def linksResolved (m : ConceptMap) : Prop :=
  ∀ l ∈ m.links,
    (∃ n ∈ m.nodes, n.label = l.source) ∧ ∃ n ∈ m.nodes, n.label = l.target

/-- Links produced by the link-merge loop only ever point at labels of the
node list the loop resolves against. -/
theorem mergeLinks_resolved (nodes : List ConceptNode)
    (links : List ConceptLink) (cands : List CandLink)
    (h : ∀ l ∈ links,
      (∃ n ∈ nodes, n.label = l.source) ∧ ∃ n ∈ nodes, n.label = l.target) :
    ∀ l ∈ mergeLinks nodes links cands,
      (∃ n ∈ nodes, n.label = l.source) ∧ ∃ n ∈ nodes, n.label = l.target := by
  unfold mergeLinks
  refine foldl_induction _ _ _
    (fun (acc : List ConceptLink) => ∀ l ∈ acc,
      (∃ n ∈ nodes, n.label = l.source) ∧ ∃ n ∈ nodes, n.label = l.target)
    h ?_
  intro acc b _ hacc
  rcases hs : nodes.find? (fun n =>
      toLowerCase n.label == toLowerCase b.source) with _ | sourceNode
  · rw [mergeLinkStep_src_none hs]; exact hacc
  rcases ht : nodes.find? (fun n =>
      toLowerCase n.label == toLowerCase b.target) with _ | targetNode
  · rw [mergeLinkStep_tgt_none hs ht]; exact hacc
  rw [mergeLinkStep_some hs ht]
  by_cases hdup : (acc.find? fun el =>
      el.source == sourceNode.label && el.target == targetNode.label).isSome
  · rw [if_pos hdup]; exact hacc
  · rw [if_neg hdup]
    intro l hl
    rcases List.mem_append.1 hl with hl | hl
    · exact hacc l hl
    · have hl' : l = { source := sourceNode.label,
                       target := targetNode.label,
                       label := b.label } := by simpa using hl
      subst hl'
      exact ⟨⟨sourceNode, List.mem_of_find?_eq_some hs, rfl⟩,
             ⟨targetNode, List.mem_of_find?_eq_some ht, rfl⟩⟩

/-- One merge call preserves the no-dangling-links invariant. -/
theorem merge_preserves_resolved (m : ConceptMap) (cn : List String)
    (cl : List CandLink) (h : linksResolved m) :
    linksResolved (generateConceptMapUpdate m cn cl) := by
  intro l hl
  have base : ∀ l ∈ m.links,
      (∃ n ∈ mergeNodes m.nodes cn, n.label = l.source) ∧
        ∃ n ∈ mergeNodes m.nodes cn, n.label = l.target := by
    intro l hl
    obtain ⟨⟨a, ha, ha'⟩, ⟨b, hb, hb'⟩⟩ := h l hl
    exact ⟨⟨a, mem_mergeNodes_of_mem cn ha, ha'⟩,
           ⟨b, mem_mergeNodes_of_mem cn hb, hb'⟩⟩
  exact mergeLinks_resolved _ _ _ base l hl

/-- C3: after any sequence of merge calls starting from the empty map, every
stored link's source and target strings are exactly the label of some node in
the current node set (no dangling links); a candidate link is added only if
both endpoints resolve case-insensitively, its stored endpoints are rewritten
to the matched nodes' labels, and a failing link is dropped. -/
theorem merge_no_dangling_links
    (steps : List (List String × List CandLink)) :
    linksResolved (mergeAll ⟨[], []⟩ steps) := by
  unfold mergeAll
  refine foldl_induction _ _ _ linksResolved ?_ ?_
  · intro l hl; simp at hl
  · intro acc b _ h; exact merge_preserves_resolved acc b.1 b.2 h

/-- C4: merging a candidate node whose label matches an existing node's label
case-insensitively never changes the count of nodes of that label class; and
merging the candidates Democracy and democracy into a map with no existing
case-insensitive match adds exactly one node, not two. -/
theorem merge_case_insensitive_dedup :
    (∀ (nodes : List ConceptNode) (cands : List String) (s : String),
        (∃ n ∈ nodes, toLowerCase n.label = s) →
        (mergeNodes nodes cands).countP (fun n => toLowerCase n.label == s) =
          nodes.countP (fun n => toLowerCase n.label == s)) ∧
    (∀ nodes : List ConceptNode,
        (∀ n ∈ nodes, toLowerCase n.label ≠ "democracy") →
        (mergeNodes nodes ["Democracy", "democracy"]).length
          = nodes.length + 1) := by
  constructor
  · intro nodes cands s hex
    unfold mergeNodes
    refine (foldl_induction _ cands nodes
      (fun acc => acc.countP (fun n => toLowerCase n.label == s) =
          nodes.countP (fun n => toLowerCase n.label == s) ∧
        ∃ n ∈ acc, toLowerCase n.label = s) ⟨rfl, hex⟩ ?_).1
    intro acc lab _ hP
    obtain ⟨hcount, n, hn, hns⟩ := hP
    by_cases hfind : (acc.find? fun en =>
        toLowerCase en.label == toLowerCase lab).isSome
    · simpa [hfind] using ⟨hcount, n, hn, hns⟩
    · have hlab : toLowerCase lab ≠ s := by
        intro heq
        apply hfind
        refine List.find?_isSome.2 ?_
        exact ⟨n, hn, by simp [hns, heq]⟩
      rw [if_neg hfind]
      refine ⟨?_, n, List.mem_append_left _ hn, hns⟩
      rw [List.countP_append, hcount]
      simp [mkNode, hlab]
  · intro nodes hno
    have hdem : toLowerCase "Democracy" = "democracy" := by decide
    have hfind1 : (nodes.find? fun en =>
        toLowerCase en.label == toLowerCase "Democracy") = none := by
      refine List.find?_eq_none.2 ?_
      intro n hn
      simp only [beq_iff_eq, hdem]
      exact hno n hn
    have hfind2 : Option.isSome ((nodes ++ [mkNode "Democracy"]).find?
        fun en => toLowerCase en.label == toLowerCase "democracy") := by
      refine List.find?_isSome.2 ?_
      exact ⟨_, List.mem_append_right _ (List.mem_singleton_self _), by decide⟩
    have step1 : mergeNodes nodes ["Democracy", "democracy"] =
        mergeNodes
          (if (nodes.find? fun en =>
              toLowerCase en.label == toLowerCase "Democracy").isSome
           then nodes
           else nodes ++ [mkNode "Democracy"])
          ["democracy"] := rfl
    have step2 : mergeNodes (nodes ++ [mkNode "Democracy"]) ["democracy"] =
        (if Option.isSome ((nodes ++ [mkNode "Democracy"]).find?
            fun en => toLowerCase en.label == toLowerCase "democracy")
         then nodes ++ [mkNode "Democracy"]
         else (nodes ++ [mkNode "Democracy"]) ++ [mkNode "democracy"]) := rfl
    rw [step1, if_neg (by rw [hfind1]; simp), step2, if_pos hfind2]
    simp

/-- C4 witness: a concrete instance of each half of the dedup theorem. -/
theorem merge_case_insensitive_dedup_witness :
    (mergeNodes [mkNode "X"] ["x"]).countP
        (fun n => toLowerCase n.label == "x") =
      ([mkNode "X"] :
        List ConceptNode).countP (fun n => toLowerCase n.label == "x") ∧
    (mergeNodes [] ["Democracy", "democracy"]).length =
      ([] : List ConceptNode).length + 1 :=
  ⟨merge_case_insensitive_dedup.1 _ ["x"] "x"
      ⟨_, List.mem_singleton_self _, by decide⟩,
   merge_case_insensitive_dedup.2 [] (by simp)⟩

/-- Links have pairwise-distinct resolved ordered pairs after a link merge,
provided they did before. -/
theorem mergeLinks_pairwise (nodes : List ConceptNode)
    (links : List ConceptLink) (cands : List CandLink)
    (h : links.Pairwise
      (fun l₁ l₂ => ¬(l₁.source = l₂.source ∧ l₁.target = l₂.target))) :
    (mergeLinks nodes links cands).Pairwise
      (fun l₁ l₂ => ¬(l₁.source = l₂.source ∧ l₁.target = l₂.target)) := by
  unfold mergeLinks
  refine foldl_induction _ _ _
    (fun (acc : List ConceptLink) => acc.Pairwise
      (fun l₁ l₂ => ¬(l₁.source = l₂.source ∧ l₁.target = l₂.target)))
    h ?_
  intro acc b _ hacc
  rcases hs : nodes.find? (fun n =>
      toLowerCase n.label == toLowerCase b.source) with _ | sourceNode
  · rw [mergeLinkStep_src_none hs]; exact hacc
  rcases ht : nodes.find? (fun n =>
      toLowerCase n.label == toLowerCase b.target) with _ | targetNode
  · rw [mergeLinkStep_tgt_none hs ht]; exact hacc
  rw [mergeLinkStep_some hs ht]
  by_cases hdup : (acc.find? fun el =>
      el.source == sourceNode.label && el.target == targetNode.label).isSome
  · rw [if_pos hdup]; exact hacc
  · rw [if_neg hdup]
    refine List.pairwise_append.2 ⟨hacc, List.pairwise_singleton _ _, ?_⟩
    intro a ha b hb
    have hb' := List.mem_singleton.1 hb
    subst hb'
    have hnone := Option.not_isSome_iff_eq_none.1 hdup
    have hath := List.find?_eq_none.1 hnone a ha
    intro hcontra
    apply hath
    simp only [Bool.and_eq_true, beq_iff_eq]
    exact ⟨hcontra.1, hcontra.2⟩

/-- C5: merge is idempotent on links: no two stored links ever share the same
resolved ordered (source, target) pair, and merging the same link twice, with
the same or different casing and regardless of link labels, leaves exactly
one entry for that pair. -/
theorem merge_link_idempotent :
    (∀ steps : List (List String × List CandLink),
        (mergeAll ⟨[], []⟩ steps).links.Pairwise
          (fun l₁ l₂ => ¬(l₁.source = l₂.source ∧ l₁.target = l₂.target))) ∧
    (generateConceptMapUpdate
        (generateConceptMapUpdate ⟨[], []⟩ ["A", "B"]
          [⟨"a", "b", some "x"⟩, ⟨"A", "b", some "y"⟩])
        [] [⟨"a", "B", some "z"⟩]).links = [⟨"A", "B", some "x"⟩] := by
  constructor
  · intro steps
    unfold mergeAll
    refine foldl_induction _ _ _
      (fun (m : ConceptMap) => m.links.Pairwise
        (fun l₁ l₂ => ¬(l₁.source = l₂.source ∧ l₁.target = l₂.target)))
      ?_ ?_
    · simp
    · intro acc b _ hacc
      exact mergeLinks_pairwise _ _ _ hacc
  · decide

/-- Every node produced by the node-merge loop has id equal to label, as
long as the pre-existing nodes do. -/
theorem mergeNodes_id_eq_label (nodes : List ConceptNode)
    (cands : List String) (h : ∀ n ∈ nodes, n.id = n.label) :
    ∀ n ∈ mergeNodes nodes cands, n.id = n.label := by
  unfold mergeNodes
  refine foldl_induction _ _ _
    (fun (acc : List ConceptNode) => ∀ n ∈ acc, n.id = n.label) h ?_
  intro acc lab _ hacc
  by_cases hfind : (acc.find? fun en =>
      toLowerCase en.label == toLowerCase lab).isSome
  · rw [if_pos hfind]; exact hacc
  · rw [if_neg hfind]
    intro n hn
    rcases List.mem_append.1 hn with hn | hn
    · exact hacc n hn
    · have : n = mkNode lab := by simpa using hn
      rw [this]
      rfl

/-- C9: every node stored by merge has its id exactly equal to its label
(no normalization); when two candidate labels differ only in case, the
stored casing is the earlier one, and added links are rewritten to the
stored casing. -/
theorem merge_id_eq_label_first_casing :
    (∀ steps : List (List String × List CandLink),
        ∀ n ∈ (mergeAll ⟨[], []⟩ steps).nodes, n.id = n.label) ∧
    (∀ (nodes : List ConceptNode) (c : String) (cs : List String),
        (∃ n ∈ nodes, toLowerCase n.label = toLowerCase c) →
        mergeNodes nodes (c :: cs) = mergeNodes nodes cs) ∧
    (generateConceptMapUpdate
        (generateConceptMapUpdate ⟨[], []⟩ ["Democracy", "Freedom"] [])
        ["DEMOCRACY"] [⟨"dEmOcRaCy", "fReEdOm", some "enables"⟩]).nodes =
      [mkNode "Democracy", mkNode "Freedom"] ∧
    (generateConceptMapUpdate
        (generateConceptMapUpdate ⟨[], []⟩ ["Democracy", "Freedom"] [])
        ["DEMOCRACY"] [⟨"dEmOcRaCy", "fReEdOm", some "enables"⟩]).links =
      [⟨"Democracy", "Freedom", some "enables"⟩] := by
  refine ⟨?_, ?_, ?_, ?_⟩
  · intro steps
    unfold mergeAll
    refine foldl_induction _ _ _
      (fun (m : ConceptMap) => ∀ n ∈ m.nodes, n.id = n.label)
      ?_ ?_
    · simp
    · intro acc b _ hacc
      exact mergeNodes_id_eq_label _ _ hacc
  · intro nodes c cs hex
    have hf : (nodes.find? fun en =>
        toLowerCase en.label == toLowerCase c).isSome := by
      refine List.find?_isSome.2 ?_
      obtain ⟨n, hn, hns⟩ := hex
      exact ⟨n, hn, by simp [hns]⟩
    have step : mergeNodes nodes (c :: cs) =
        mergeNodes
          (if (nodes.find? fun en =>
              toLowerCase en.label == toLowerCase c).isSome
           then nodes
           else nodes ++ [mkNode c]) cs := rfl
    rw [step, if_pos hf]
  · rfl
  · decide

/-- C9 witness: concrete instances of the id-equals-label part and of the
absorption (earlier casing wins) part. -/
theorem merge_id_eq_label_first_casing_witness :
    (mkNode "A").id = (mkNode "A").label ∧
    mergeNodes [mkNode "X"] ["x"] = mergeNodes [mkNode "X"] [] :=
  ⟨merge_id_eq_label_first_casing.1 [(["A"], [])] (mkNode "A")
      (List.mem_singleton_self _),
   merge_id_eq_label_first_casing.2.1 [mkNode "X"] "x" []
      ⟨mkNode "X", List.mem_singleton_self _, by decide⟩⟩

noncomputable section

/-- Width and height of a node's collision footprint, from its label
(`getNodeDimensions`, `ConceptBuilder.tsx` lines 12-17). -/
def getNodeDimensions (label : String) : ℝ × ℝ :=
  (max 120 ((label.length : ℝ) * 9 + 30), 44)

/-- A 2D point (pointer positions and intersection results). -/
structure Point where
  x : ℝ
  y : ℝ

/-- Line/rectangle intersection used to clip edges to node borders
(`getIntersection`, `ConceptBuilder.tsx` lines 21-57). -/
def getIntersection (fro target : Point) (targetWidth targetHeight : ℝ) :
    Point :=
  let dx := target.x - fro.x
  let dy := target.y - fro.y
  let w := targetWidth + 4
  let h := targetHeight + 4
  if |dx| < 1 ∧ |dy| < 1 then target
  else
    let m := dy / dx
    if |dx| * h > |dy| * w then
      let ix := if dx > 0 then -w / 2 else w / 2
      { x := target.x + ix, y := target.y + m * ix }
    else
      let iy := if dy > 0 then -h / 2 else h / 2
      let ix := if dx ≠ 0 then iy / m else 0
      { x := target.x + ix, y := target.y + iy }

/-- Spawn position of one newly appeared node in the layout effect
(`useForceLayout`, `ConceptBuilder.tsx` lines 84-104).  The parameter
`angle` stands for the draw `Math.random() * Math.PI * 2`, and `jx`, `jy`
for the two independent `Math.random()` draws of the jitter branch. -/
def spawnPos (next : List ConceptNode) (links : List ConceptLink)
    (width height : ℝ) (label : String) (angle jx jy : ℝ) : Point :=
  match links.find? (fun l => l.target == label || l.source == label) with
  | some connectedLink =>
      let peerLabel := if connectedLink.source == label then
        connectedLink.target else connectedLink.source
      match next.find? (fun p => p.label == peerLabel) with
      | some peer =>
          { x := peer.x + Real.cos angle * 80,
            y := peer.y + Real.sin angle * 80 }
      | none => { x := width / 2, y := height / 2 }
  | none =>
      { x := width / 2 + (jx - 0.5) * 100,
        y := height / 2 + (jy - 0.5) * 100 }

/-- Ideal spring length and repulsion scale (`const k = 250`, line 117). -/
def k : ℝ := 250

/-- Guarded squared distance of the repulsion force
(`if (distSq === 0) distSq = 1`, line 128). -/
def repelDistSq (u v : ConceptNode) : ℝ :=
  let dx := u.x - v.x
  let dy := u.y - v.y
  if dx * dx + dy * dy = 0 then 1 else dx * dx + dy * dy

/-- Repulsion force vector (fx, fy) (`ConceptBuilder.tsx` lines 125-135). -/
def repelForce (u v : ConceptNode) : ℝ × ℝ :=
  let dx := u.x - v.x
  let dy := u.y - v.y
  let distSq := repelDistSq u v
  let dist := Real.sqrt distSq
  let force := k * k * 8 / distSq
  (dx / dist * force, dy / dist * force)

/-- Repulsion inner-loop body for the pair of indices i < j
(`ConceptBuilder.tsx` lines 123-139): each of the two velocities changes
unless its node is the dragged one. -/
def repelStep (draggedNodeId : Option String) (ns : List ConceptNode)
    (i j : ℕ) : List ConceptNode :=
  match ns[i]?, ns[j]? with
  | some u, some v =>
      let f := repelForce u v
      let ns1 := if some u.id = draggedNodeId then ns
        else ns.set i { u with vx := u.vx + f.1 * 0.05,
                               vy := u.vy + f.2 * 0.05 }
      if some v.id = draggedNodeId then ns1
      else ns1.set j { v with vx := v.vx - f.1 * 0.05,
                              vy := v.vy - f.2 * 0.05 }
  | _, _ => ns

/-- Centering-force body for index i (`ConceptBuilder.tsx` lines 142-145). -/
def centerStep (width height : ℝ) (draggedNodeId : Option String)
    (ns : List ConceptNode) (i : ℕ) : List ConceptNode :=
  match ns[i]? with
  | some u =>
      if some u.id = draggedNodeId then ns
      else ns.set i { u with vx := u.vx + (width / 2 - u.x) * 0.005,
                             vy := u.vy + (height / 2 - u.y) * 0.005 }
  | none => ns

/-- Phase 1 of one tick: pairwise repulsion plus centering
(`ConceptBuilder.tsx` lines 121-146). -/
def repulsionPhase (width height : ℝ) (draggedNodeId : Option String)
    (ns : List ConceptNode) : List ConceptNode :=
  (List.range ns.length).foldl
    (fun acc i =>
      centerStep width height draggedNodeId
        ((List.range ns.length).foldl
          (fun acc2 j =>
            if i < j then repelStep draggedNodeId acc2 i j else acc2)
          acc)
        i)
    ns

/-- Guarded spring length (`Math.sqrt(...) || 1`, line 155). -/
def springDist (source target : ConceptNode) : ℝ :=
  let dx := target.x - source.x
  let dy := target.y - source.y
  if Real.sqrt (dx * dx + dy * dy) = 0 then 1
  else Real.sqrt (dx * dx + dy * dy)

/-- Spring force vector (fx, fy) (`ConceptBuilder.tsx` lines 153-160). -/
def springForce (source target : ConceptNode) : ℝ × ℝ :=
  let dx := target.x - source.x
  let dy := target.y - source.y
  let dist := springDist source target
  let force := (dist - k) * 0.03
  (dx / dist * force, dy / dist * force)

/-- Spring body for one link (`ConceptBuilder.tsx` lines 149-165): the two
endpoints are located by label; the target's record is re-read after the
source update, mirroring the aliasing of the two object references when a
link is a self-loop. -/
def springStep (draggedNodeId : Option String) (ns : List ConceptNode)
    (link : ConceptLink) : List ConceptNode :=
  match ns.findIdx? (fun n => n.label == link.source),
        ns.findIdx? (fun n => n.label == link.target) with
  | some si, some ti =>
      match ns[si]?, ns[ti]? with
      | some source, some target =>
          let f := springForce source target
          let ns1 := if some source.id = draggedNodeId then ns
            else ns.set si { source with vx := source.vx + f.1,
                                         vy := source.vy + f.2 }
          match ns1[ti]? with
          | some target1 =>
              if some target1.id = draggedNodeId then ns1
              else ns1.set ti { target1 with vx := target1.vx - f.1,
                                             vy := target1.vy - f.2 }
          | none => ns1
      | _, _ => ns
  | _, _ => ns

/-- Phase 2 of one tick: spring attraction over all links
(`ConceptBuilder.tsx` lines 148-165). -/
def attractionPhase (draggedNodeId : Option String)
    (links : List ConceptLink) (ns : List ConceptNode) : List ConceptNode :=
  links.foldl (springStep draggedNodeId) ns

/-- Collision padding (`const padding = 30`, line 168). -/
def padding : ℝ := 30

/-- Required x-separation of two footprints (`minW`, line 181). -/
def minW (u v : ConceptNode) : ℝ :=
  ((getNodeDimensions u.label).1 + (getNodeDimensions v.label).1) / 2
    + padding

/-- Required y-separation of two footprints (`minH`, line 182). -/
def minH (u v : ConceptNode) : ℝ :=
  ((getNodeDimensions u.label).2 + (getNodeDimensions v.label).2) / 2
    + padding

/-- Collision inner-loop body for the pair of indices i < j
(`ConceptBuilder.tsx` lines 170-205): overlapping padded footprints are
pushed apart along the axis of smaller overlap; positions move only for
non-dragged nodes, while the velocity damping applies to both. -/
def collideStep (draggedNodeId : Option String) (ns : List ConceptNode)
    (i j : ℕ) : List ConceptNode :=
  match ns[i]?, ns[j]? with
  | some u, some v =>
      let dx := u.x - v.x
      let dy := u.y - v.y
      if |dx| < minW u v ∧ |dy| < minH u v then
        let overlapX := minW u v - |dx|
        let overlapY := minH u v - |dy|
        if overlapX < overlapY then
          let sign : ℝ := if dx > 0 then 1 else -1
          let push := overlapX / 2
          let u1 := { u with
            x := if some u.id = draggedNodeId then u.x else u.x + sign * push,
            vx := u.vx * 0.1 }
          let v1 := { v with
            x := if some v.id = draggedNodeId then v.x else v.x - sign * push,
            vx := v.vx * 0.1 }
          (ns.set i u1).set j v1
        else
          let sign : ℝ := if dy > 0 then 1 else -1
          let push := overlapY / 2
          let u1 := { u with
            y := if some u.id = draggedNodeId then u.y else u.y + sign * push,
            vy := u.vy * 0.1 }
          let v1 := { v with
            y := if some v.id = draggedNodeId then v.y else v.y - sign * push,
            vy := v.vy * 0.1 }
          (ns.set i u1).set j v1
      else ns
  | _, _ => ns

/-- One collision pass over all pairs i < j (lines 170-206). -/
def collidePass (draggedNodeId : Option String) (ns : List ConceptNode) :
    List ConceptNode :=
  (List.range ns.length).foldl
    (fun acc i =>
      (List.range ns.length).foldl
        (fun acc2 j =>
          if i < j then collideStep draggedNodeId acc2 i j else acc2)
        acc)
    ns

/-- Phase 3 of one tick: three collision passes
(`for pass < 3`, line 169). -/
def collisionPhase (draggedNodeId : Option String)
    (ns : List ConceptNode) : List ConceptNode :=
  (List.range 3).foldl (fun acc _ => collidePass draggedNodeId acc) ns

/-- Boundary margin of the viewport clamp
(`const boundaryMargin = 60`, line 210). -/
def boundaryMargin : ℝ := 60

/-- Per-axis velocity cap (`const maxV = 8`, line 220). -/
def maxV : ℝ := 8

/-- Phase 4 for one non-pinned node (`ConceptBuilder.tsx` lines 216-235):
damping, per-axis clamp, near-zero snap, integration, boundary clamp. -/
def integrateNode (width height : ℝ) (n : ConceptNode) : ConceptNode :=
  let vx0 := n.vx * 0.65
  let vy0 := n.vy * 0.65
  let vx1 := max (-maxV) (min maxV vx0)
  let vy1 := max (-maxV) (min maxV vy0)
  let vx := if |vx1| < 0.05 then 0 else vx1
  let vy := if |vy1| < 0.05 then 0 else vy1
  let x0 := n.x + vx
  let y0 := n.y + vy
  let x := max boundaryMargin (min (width - boundaryMargin) x0)
  let y := max boundaryMargin (min (height - boundaryMargin) y0)
  { n with x := x, y := y, vx := vx, vy := vy }

/-- Phase 4 for one node (`ConceptBuilder.tsx` lines 211-235): the dragged
node with a supplied pointer position is pinned to it with zero velocity;
every other node is integrated and clamped. -/
def updateNode (width height : ℝ) (draggedNodeId : Option String)
    (dragPos : Option Point) (n : ConceptNode) : ConceptNode :=
  match dragPos with
  | some p =>
      if some n.id = draggedNodeId then
        { n with x := p.x, y := p.y, vx := 0, vy := 0 }
      else integrateNode width height n
  | none => integrateNode width height n

/-- One full simulation tick (`simulate`, `ConceptBuilder.tsx` lines
113-237): repulsion and centering, spring attraction, three collision
passes, then integration with the dragged-node override. -/
def simulate (links : List ConceptLink) (width height : ℝ)
    (draggedNodeId : Option String) (dragPos : Option Point)
    (prevNodes : List ConceptNode) : List ConceptNode :=
  (collisionPhase draggedNodeId
      (attractionPhase draggedNodeId links
        (repulsionPhase width height draggedNodeId prevNodes))).map
    (updateNode width height draggedNodeId dragPos)

end

/-- The integration step clamps both coordinates into the margin bounds. -/
theorem integrateNode_bounds (width height : ℝ) (n : ConceptNode)
    (hw : 120 ≤ width) (hh : 120 ≤ height) :
    60 ≤ (integrateNode width height n).x ∧
      (integrateNode width height n).x ≤ width - 60 ∧
      60 ≤ (integrateNode width height n).y ∧
      (integrateNode width height n).y ≤ height - 60 := by
  unfold integrateNode boundaryMargin
  dsimp only
  refine ⟨le_max_left _ _, max_le (by linarith) (min_le_left _ _),
          le_max_left _ _, max_le (by linarith) (min_le_left _ _)⟩

/-- C1 (amended): in a viewport at least 120 units wide and tall, every node
output by a tick that is not the dragged node pinned to a supplied pointer
position lies within the margin-clamped bounds 60 le x le w-60 and
60 le y le h-60; the dragged node with a supplied pointer is instead placed
exactly at the pointer, which may lie outside the bounds. -/
theorem simulate_boundary_clamp (links : List ConceptLink)
    (width height : ℝ) (draggedNodeId : Option String)
    (dragPos : Option Point) (prevNodes : List ConceptNode)
    (hw : 120 ≤ width) (hh : 120 ≤ height) :
    ∀ n ∈ simulate links width height draggedNodeId dragPos prevNodes,
      ¬(some n.id = draggedNodeId ∧ dragPos.isSome) →
      60 ≤ n.x ∧ n.x ≤ width - 60 ∧ 60 ≤ n.y ∧ n.y ≤ height - 60 := by
  intro n hn hnd
  obtain ⟨m, hm, rfl⟩ := List.mem_map.1 hn
  rcases dragPos with _ | p
  · exact integrateNode_bounds width height m hw hh
  · have heq : updateNode width height draggedNodeId (some p) m =
        if some m.id = draggedNodeId then
          { m with x := p.x, y := p.y, vx := 0, vy := 0 }
        else integrateNode width height m := rfl
    by_cases hid : some m.id = draggedNodeId
    · rw [heq, if_pos hid] at hnd
      exact absurd ⟨hid, rfl⟩ hnd
    · rw [heq, if_neg hid]
      exact integrateNode_bounds width height m hw hh

/-- C1 counterexample: with viewport 800 by 600 and the single node dragged
with pointer position (0, 0), the tick outputs the node exactly at (0, 0),
outside the margin-clamped bounds, so the clamp does not hold regardless of
drag state. -/
theorem simulate_boundary_clamp_counterexample :
    simulate [] 800 600 (some "a") (some { x := 0, y := 0 })
        [{ id := "a", label := "a", x := 400, y := 300 }] =
      [{ id := "a", label := "a", x := 0, y := 0 }] ∧
    ¬(60 ≤ (0 : ℝ)) := by
  constructor
  · rfl
  · norm_num

/-- C1 witness: the amended clamp theorem applied at a concrete tick. -/
theorem simulate_boundary_clamp_witness :
    ∃ n, (simulate [] 800 600 none none
        [{ id := "a", label := "a", x := 400, y := 300 }])[0]? = some n ∧
      60 ≤ n.x ∧ n.x ≤ 800 - 60 ∧ 60 ≤ n.y ∧ n.y ≤ 600 - 60 := by
  have hsim : simulate [] 800 600 none none
      [{ id := "a", label := "a", x := 400, y := 300 }] =
      [integrateNode 800 600
        { id := "a", label := "a", x := 400, y := 300,
          vx := 0 + (800 / 2 - 400) * 0.005,
          vy := 0 + (600 / 2 - 300) * 0.005 }] := rfl
  refine ⟨integrateNode 800 600
      { id := "a", label := "a", x := 400, y := 300,
        vx := 0 + (800 / 2 - 400) * 0.005,
        vy := 0 + (600 / 2 - 300) * 0.005 }, by rw [hsim]; rfl, ?_⟩
  exact simulate_boundary_clamp [] 800 600 none none
    [{ id := "a", label := "a", x := 400, y := 300 }]
    (by norm_num) (by norm_num) _
    (by rw [hsim]; exact List.mem_singleton_self _) (by simp)

/-- The guarded repulsion denominator is strictly positive. -/
theorem repelDistSq_pos (u v : ConceptNode) : 0 < repelDistSq u v := by
  unfold repelDistSq
  dsimp only
  by_cases h : (u.x - v.x) * (u.x - v.x) + (u.y - v.y) * (u.y - v.y) = 0
  · rw [if_pos h]; norm_num
  · rw [if_neg h]
    rcases lt_or_eq_of_le (add_nonneg (mul_self_nonneg (u.x - v.x))
      (mul_self_nonneg (u.y - v.y))) with hlt | heq
    · exact hlt
    · exact absurd heq.symm h

/-- C8: every division in the force and intersection math is guarded: the
repulsion step replaces a zero squared distance by 1 (so its denominators
are nonzero for all inputs), the spring step substitutes distance 1 when the
endpoints coincide (and is never zero), and the edge-intersection function
returns the target centre unchanged whenever the two centres are within one
unit on both axes; in the remaining branches the divisor dx (vertical side)
respectively dy (horizontal side, after the dx = 0 fallback) is nonzero. -/
theorem division_guards :
    (∀ u v : ConceptNode, repelDistSq u v ≠ 0 ∧
        Real.sqrt (repelDistSq u v) ≠ 0) ∧
    (∀ u v : ConceptNode, u.x = v.x → u.y = v.y → repelDistSq u v = 1) ∧
    (∀ s t : ConceptNode, springDist s t ≠ 0) ∧
    (∀ s t : ConceptNode, s.x = t.x → s.y = t.y → springDist s t = 1) ∧
    (∀ (fro target : Point) (tw th : ℝ),
        |target.x - fro.x| < 1 → |target.y - fro.y| < 1 →
        getIntersection fro target tw th = target) ∧
    (∀ (fro target : Point) (tw th : ℝ), 0 ≤ tw → 0 ≤ th →
        (|target.x - fro.x| * (th + 4) > |target.y - fro.y| * (tw + 4) →
          target.x - fro.x ≠ 0) ∧
        (¬(|target.x - fro.x| * (th + 4) > |target.y - fro.y| * (tw + 4)) →
          target.x - fro.x ≠ 0 → target.y - fro.y ≠ 0)) := by
  refine ⟨?_, ?_, ?_, ?_, ?_, ?_⟩
  · intro u v
    refine ⟨(repelDistSq_pos u v).ne.symm, ?_⟩
    exact (Real.sqrt_pos.2 (repelDistSq_pos u v)).ne.symm
  · intro u v hx hy
    unfold repelDistSq
    dsimp only
    rw [hx, hy]
    simp
  · intro s t
    unfold springDist
    dsimp only
    by_cases h : Real.sqrt ((t.x - s.x) * (t.x - s.x) +
        (t.y - s.y) * (t.y - s.y)) = 0
    · rw [if_pos h]; norm_num
    · rw [if_neg h]; exact h
  · intro s t hx hy
    unfold springDist
    dsimp only
    rw [hx, hy]
    simp
  · intro fro target tw th h1 h2
    unfold getIntersection
    rw [if_pos ⟨h1, h2⟩]
  · intro fro target tw th hw hh
    constructor
    · intro hgt h0
      rw [h0] at hgt
      have hnn : 0 ≤ |target.y - fro.y| * (tw + 4) :=
        mul_nonneg (abs_nonneg _) (by linarith)
      simp only [abs_zero, zero_mul] at hgt
      linarith
    · intro hle hdx h0
      rw [h0] at hle
      apply hle
      simp only [abs_zero, zero_mul]
      exact mul_pos (abs_pos.2 hdx) (by linarith)

/-- C8 witness: the guard theorem applied at concrete inputs. -/
theorem division_guards_witness :
    (repelDistSq { id := "a", label := "a", x := 3, y := 4 }
        { id := "b", label := "b", x := 3, y := 4 } = 1) ∧
    (springDist { id := "a", label := "a", x := 3, y := 4 }
        { id := "b", label := "b", x := 3, y := 4 } = 1) ∧
    (getIntersection { x := 0, y := 0 } { x := 0, y := 0 } 100 40 =
      { x := 0, y := 0 }) ∧
    ((|({ x := 5, y := 0 } : Point).x - ({ x := 0, y := 0 } : Point).x|
        * ((40 : ℝ) + 4) >
      |({ x := 5, y := 0 } : Point).y - ({ x := 0, y := 0 } : Point).y|
        * ((100 : ℝ) + 4) →
      ({ x := 5, y := 0 } : Point).x - ({ x := 0, y := 0 } : Point).x ≠ 0)) :=
  ⟨division_guards.2.1 _ _ rfl rfl,
   division_guards.2.2.2.1 _ _ rfl rfl,
   division_guards.2.2.2.2.1 { x := 0, y := 0 } { x := 0, y := 0 } 100 40
     (by simp) (by simp),
   (division_guards.2.2.2.2.2 { x := 0, y := 0 } { x := 5, y := 0 } 100 40
     (by norm_num) (by norm_num)).1⟩

/-- C6 (amended): spawn placement is decided by the first candidate link
touching the new node's label.  If that link's peer node is present, the
node spawns on the ring of radius exactly 80 around the peer (angle given by
the random draw); if that link exists but its peer cannot be found, the node
spawns at the exact viewport centre, ignoring the jitter draws; only when no
candidate link touches the label at all does it spawn at the centre plus a
jitter of at most 50 units per axis. -/
theorem spawnPos_spec (next : List ConceptNode) (links : List ConceptLink)
    (width height : ℝ) (label : String) (angle jx jy : ℝ) :
    (∀ cl peer,
        links.find? (fun l => l.target == label || l.source == label)
          = some cl →
        next.find? (fun p => p.label ==
          (if cl.source == label then cl.target else cl.source))
          = some peer →
        ((spawnPos next links width height label angle jx jy).x - peer.x) ^ 2
          + ((spawnPos next links width height label angle jx jy).y
              - peer.y) ^ 2 = 80 ^ 2) ∧
    (∀ cl,
        links.find? (fun l => l.target == label || l.source == label)
          = some cl →
        next.find? (fun p => p.label ==
          (if cl.source == label then cl.target else cl.source)) = none →
        spawnPos next links width height label angle jx jy =
          { x := width / 2, y := height / 2 }) ∧
    (links.find? (fun l => l.target == label || l.source == label) = none →
        spawnPos next links width height label angle jx jy =
          { x := width / 2 + (jx - 0.5) * 100,
            y := height / 2 + (jy - 0.5) * 100 } ∧
        (0 ≤ jx → jx ≤ 1 → |(jx - 0.5) * 100| ≤ 50) ∧
        (0 ≤ jy → jy ≤ 1 → |(jy - 0.5) * 100| ≤ 50)) := by
  refine ⟨?_, ?_, ?_⟩
  · intro cl peer h1 h2
    unfold spawnPos
    rw [h1]
    dsimp only
    rw [h2]
    dsimp only
    ring_nf
    nlinarith [Real.sin_sq_add_cos_sq angle]
  · intro cl h1 h2
    unfold spawnPos
    rw [h1]
    dsimp only
    rw [h2]
  · intro h1
    unfold spawnPos
    rw [h1]
    refine ⟨rfl, ?_, ?_⟩
    · intro h0 hle
      rw [abs_le]
      constructor <;> nlinarith
    · intro h0 hle
      rw [abs_le]
      constructor <;> nlinarith

/-- C6 counterexample: node A is proposed together with links A to B (B
unknown) and A to C (C existing at (100, 100)).  The first touching link
wins, its peer B is absent, so A spawns at the exact centre: not on the
80-ring around the existing connected neighbour C, and not at the jittered
position prescribed for the no-neighbour case. -/
theorem spawnPos_counterexample :
    spawnPos [{ id := "C", label := "C", x := 100, y := 100 }]
        [{ source := "A", target := "B" }, { source := "A", target := "C" }]
        800 600 "A" 0 1 1 = { x := 800 / 2, y := 600 / 2 } ∧
    ¬(((800 / 2 : ℝ) - 100) ^ 2 + ((600 / 2 : ℝ) - 100) ^ 2 = 80 ^ 2) ∧
    ({ x := 800 / 2, y := 600 / 2 } : Point) ≠
      { x := 800 / 2 + ((1 : ℝ) - 0.5) * 100,
        y := 600 / 2 + ((1 : ℝ) - 0.5) * 100 } := by
  refine ⟨rfl, by norm_num, ?_⟩
  intro h
  have hx := congrArg Point.x h
  dsimp only at hx
  norm_num at hx

/-- C6 witness: the spawn characterisation applied on the ring branch and on
the jitter branch at concrete inputs. -/
theorem spawnPos_spec_witness :
    (((spawnPos [{ id := "C", label := "C", x := 100, y := 100 }]
        [{ source := "A", target := "C" }] 800 600 "A" 0 1 1).x -
      ({ id := "C", label := "C", x := 100, y := 100 } :
        ConceptNode).x) ^ 2 +
      ((spawnPos [{ id := "C", label := "C", x := 100, y := 100 }]
        [{ source := "A", target := "C" }] 800 600 "A" 0 1 1).y -
      ({ id := "C", label := "C", x := 100, y := 100 } :
        ConceptNode).y) ^ 2 = 80 ^ 2) ∧
    spawnPos [] [] 800 600 "A" 0 (3 / 4) (1 / 4) =
      { x := 800 / 2 + ((3 / 4 : ℝ) - 0.5) * 100,
        y := 600 / 2 + ((1 / 4 : ℝ) - 0.5) * 100 } :=
  ⟨(spawnPos_spec [{ id := "C", label := "C", x := 100, y := 100 }]
      [{ source := "A", target := "C" }] 800 600 "A" 0 1 1).1
      { source := "A", target := "C" }
      { id := "C", label := "C", x := 100, y := 100 } rfl rfl,
   ((spawnPos_spec [] [] 800 600 "A" 0 (3 / 4) (1 / 4)).2.2 rfl).1⟩

/-- Footprint widths are at least 120 units. -/
theorem getNodeDimensions_fst_ge (label : String) :
    120 ≤ (getNodeDimensions label).1 := le_max_left _ _

/-- The required x-separation of any two footprints is at least 150. -/
theorem minW_ge (u v : ConceptNode) : 150 ≤ minW u v := by
  unfold minW padding
  have h1 := getNodeDimensions_fst_ge u.label
  have h2 := getNodeDimensions_fst_ge v.label
  linarith

/-- The required y-separation of any two footprints is exactly 74. -/
theorem minH_eq (u v : ConceptNode) : minH u v = 74 := by
  unfold minH padding getNodeDimensions
  norm_num

/-- Three collision passes, unfolded. -/
theorem collisionPhase_eq (d : Option String) (ns : List ConceptNode) :
    collisionPhase d ns = collidePass d (collidePass d (collidePass d ns))
    := rfl

/-- On a two-node list a collision pass is exactly the single pair step. -/
theorem collidePass_two (d : Option String) (u v : ConceptNode) :
    collidePass d [u, v] = collideStep d [u, v] 0 1 := rfl

/-- The collision step on a two-node list with nothing dragged, written out:
an overlapping pair is pushed apart symmetrically along the axis of smaller
overlap, and its velocity along that axis is damped by 0.1. -/
theorem collideStep_two_none_eq (u v : ConceptNode) :
    collideStep none [u, v] 0 1 =
      if |u.x - v.x| < minW u v ∧ |u.y - v.y| < minH u v then
        if minW u v - |u.x - v.x| < minH u v - |u.y - v.y| then
          [{ u with x := u.x + (if u.x - v.x > 0 then (1 : ℝ) else -1) *
                ((minW u v - |u.x - v.x|) / 2), vx := u.vx * 0.1 },
           { v with x := v.x - (if u.x - v.x > 0 then (1 : ℝ) else -1) *
                ((minW u v - |u.x - v.x|) / 2), vx := v.vx * 0.1 }]
        else
          [{ u with y := u.y + (if u.y - v.y > 0 then (1 : ℝ) else -1) *
                ((minH u v - |u.y - v.y|) / 2), vy := u.vy * 0.1 },
           { v with y := v.y - (if u.y - v.y > 0 then (1 : ℝ) else -1) *
                ((minH u v - |u.y - v.y|) / 2), vy := v.vy * 0.1 }]
      else [u, v] := rfl

/-- One collision step fully resolves a two-node overlap: afterwards the
padded footprints no longer overlap on at least one axis, and labels are
unchanged. -/
theorem collideStep_two_resolves (u v : ConceptNode) :
    ∃ u1 v1, collideStep none [u, v] 0 1 = [u1, v1] ∧
      u1.label = u.label ∧ v1.label = v.label ∧
      ¬(|u1.x - v1.x| < minW u v ∧ |u1.y - v1.y| < minH u v) := by
  rw [collideStep_two_none_eq]
  by_cases hov : |u.x - v.x| < minW u v ∧ |u.y - v.y| < minH u v
  · rw [if_pos hov]
    by_cases hbr : minW u v - |u.x - v.x| < minH u v - |u.y - v.y|
    · rw [if_pos hbr]
      refine ⟨_, _, rfl, rfl, rfl, ?_⟩
      dsimp only
      intro hcon
      obtain ⟨hx, -⟩ := hcon
      have hmw := minW_ge u v
      by_cases hdx : u.x - v.x > 0
      · rw [if_pos hdx] at hx
        rw [abs_of_pos hdx] at hx
        have : u.x + 1 * ((minW u v - (u.x - v.x)) / 2) -
            (v.x - 1 * ((minW u v - (u.x - v.x)) / 2)) = minW u v := by ring
        rw [this, abs_of_pos (by linarith)] at hx
        exact lt_irrefl _ hx
      · rw [if_neg hdx] at hx
        have hdx' : u.x - v.x ≤ 0 := le_of_not_lt hdx
        rw [abs_of_nonpos hdx'] at hx
        have : u.x + (-1) * ((minW u v - -(u.x - v.x)) / 2) -
            (v.x - (-1) * ((minW u v - -(u.x - v.x)) / 2)) = -minW u v := by
          ring
        rw [this, abs_neg, abs_of_pos (by linarith)] at hx
        exact lt_irrefl _ hx
    · rw [if_neg hbr]
      refine ⟨_, _, rfl, rfl, rfl, ?_⟩
      dsimp only
      intro hcon
      obtain ⟨-, hy⟩ := hcon
      have hmh := minH_eq u v
      by_cases hdy : u.y - v.y > 0
      · rw [if_pos hdy] at hy
        rw [abs_of_pos hdy] at hy
        have : u.y + 1 * ((minH u v - (u.y - v.y)) / 2) -
            (v.y - 1 * ((minH u v - (u.y - v.y)) / 2)) = minH u v := by ring
        rw [this, abs_of_pos (by rw [hmh]; norm_num)] at hy
        exact lt_irrefl _ hy
      · rw [if_neg hdy] at hy
        have hdy' : u.y - v.y ≤ 0 := le_of_not_lt hdy
        rw [abs_of_nonpos hdy'] at hy
        have : u.y + (-1) * ((minH u v - -(u.y - v.y)) / 2) -
            (v.y - (-1) * ((minH u v - -(u.y - v.y)) / 2)) = -minH u v := by
          ring
        rw [this, abs_neg, abs_of_pos (by rw [hmh]; norm_num)] at hy
        exact lt_irrefl _ hy
  · rw [if_neg hov]
    exact ⟨u, v, rfl, rfl, rfl, hov⟩

/-- A collision step on an already separated two-node pair does nothing. -/
theorem collideStep_two_noop (u v : ConceptNode)
    (h : ¬(|u.x - v.x| < minW u v ∧ |u.y - v.y| < minH u v)) :
    collideStep none [u, v] 0 1 = [u, v] := by
  rw [collideStep_two_none_eq, if_neg h]

/-- C2 (amended): for two non-dragged nodes, the three collision passes of
one tick leave their padded footprints non-overlapping: afterwards
|dx| ≥ minW or |dy| ≥ minH.  The passes do not guarantee a Euclidean
separation of half-width + half-width + padding: separation is enforced on
one axis only. -/
theorem collision_passes_separate (u v : ConceptNode) :
    ∃ u1 v1, collisionPhase none [u, v] = [u1, v1] ∧
      u1.label = u.label ∧ v1.label = v.label ∧
      ¬(|u1.x - v1.x| < minW u1 v1 ∧ |u1.y - v1.y| < minH u1 v1) := by
  obtain ⟨u1, v1, h1, hl1, hl2, hres⟩ := collideStep_two_resolves u v
  have hmw : minW u1 v1 = minW u v := by unfold minW; rw [hl1, hl2]
  have hmh : minH u1 v1 = minH u v := by unfold minH; rw [hl1, hl2]
  have hres' : ¬(|u1.x - v1.x| < minW u1 v1 ∧ |u1.y - v1.y| < minH u1 v1)
    := by rw [hmw, hmh]; exact hres
  have hnoop : collideStep none [u1, v1] 0 1 = [u1, v1] := by
    apply collideStep_two_noop
    rw [hmw, hmh]; exact hres
  refine ⟨u1, v1, ?_, hl1, hl2, hres'⟩
  rw [collisionPhase_eq, collidePass_two, h1, collidePass_two, hnoop,
    collidePass_two, hnoop]

/-- C2 counterexample: two width-120 footprints (single-character labels, so
required separation (120 + 120) / 2 + 30 = 150) whose centres start 50 apart
along x end the three collision passes 50 apart in x and 74 apart in y: the
squared distance 7976 is far below 150 squared and both axis gaps are below
150, refuting the claimed separation of half-width + half-width + padding. -/
theorem collision_separation_counterexample :
    collisionPhase none
        [{ id := "a", label := "a", x := 400, y := 300 },
         { id := "b", label := "b", x := 450, y := 300 }] =
      [{ id := "a", label := "a", x := 400, y := 263 },
       { id := "b", label := "b", x := 450, y := 337 }] ∧
    minW { id := "a", label := "a", x := 400, y := 300 }
        { id := "b", label := "b", x := 450, y := 300 } = 150 ∧
    ((400 : ℝ) - 450) ^ 2 + ((263 : ℝ) - 337) ^ 2 < 150 ^ 2 ∧
    |(400 : ℝ) - 450| < 150 ∧ |(263 : ℝ) - 337| < 150 := by
  refine ⟨?_, ?_, by norm_num, by norm_num, by norm_num⟩
  · rw [collisionPhase_eq, collidePass_two, collideStep_two_none_eq]
    norm_num [minW, minH, getNodeDimensions, padding, String.length]
    rw [collidePass_two, collideStep_two_none_eq]
    norm_num [minW, minH, getNodeDimensions, padding, String.length]
    rw [collidePass_two, collideStep_two_none_eq]
    norm_num [minW, minH, getNodeDimensions, padding, String.length]
  · norm_num [minW, getNodeDimensions, padding, String.length]

/-- Index-wise relation between the node list before and after a phase:
same length, ids and labels preserved, and every node whose id is the
dragged one has its whole record unchanged. -/
def KeepsDragged (d : String) (ns ms : List ConceptNode) : Prop :=
  ns.length = ms.length ∧
  ∀ (i : ℕ) (u v : ConceptNode), ns[i]? = some u → ms[i]? = some v →
    v.id = u.id ∧ v.label = u.label ∧ (u.id = d → v = u)

/-- As `KeepsDragged`, but only the dragged node's position is unchanged
(the collision pass may damp its velocity). -/
def KeepsDraggedPos (d : String) (ns ms : List ConceptNode) : Prop :=
  ns.length = ms.length ∧
  ∀ (i : ℕ) (u v : ConceptNode), ns[i]? = some u → ms[i]? = some v →
    v.id = u.id ∧ v.label = u.label ∧ (u.id = d → v.x = u.x ∧ v.y = u.y)

theorem keepsDragged_refl (d : String) (ns : List ConceptNode) :
    KeepsDragged d ns ns := by
  refine ⟨rfl, ?_⟩
  intro i u v hu hv
  rw [hu] at hv
  cases hv
  exact ⟨rfl, rfl, fun _ => rfl⟩

theorem keepsDraggedPos_refl (d : String) (ns : List ConceptNode) :
    KeepsDraggedPos d ns ns := by
  refine ⟨rfl, ?_⟩
  intro i u v hu hv
  rw [hu] at hv
  cases hv
  exact ⟨rfl, rfl, fun _ => ⟨rfl, rfl⟩⟩

theorem keepsDraggedPos_of_keepsDragged {d : String}
    {ns ms : List ConceptNode} (h : KeepsDragged d ns ms) :
    KeepsDraggedPos d ns ms := by
  obtain ⟨hl, h⟩ := h
  refine ⟨hl, ?_⟩
  intro i u v hu hv
  obtain ⟨h1, h2, h3⟩ := h i u v hu hv
  exact ⟨h1, h2, fun hd => by rw [h3 hd]; exact ⟨rfl, rfl⟩⟩

theorem keepsDragged_trans (d : String) (a b c : List ConceptNode)
    (h1 : KeepsDragged d a b) (h2 : KeepsDragged d b c) :
    KeepsDragged d a c := by
  obtain ⟨hl1, h1⟩ := h1
  obtain ⟨hl2, h2⟩ := h2
  refine ⟨hl1.trans hl2, ?_⟩
  intro i u w hu hw
  rcases hb : b[i]? with _ | v
  · have hlen := List.getElem?_eq_none_iff.1 hb
    have := (List.getElem?_eq_some_iff.1 hu).1
    omega
  obtain ⟨hid1, hlab1, hkeep1⟩ := h1 i u v hu hb
  obtain ⟨hid2, hlab2, hkeep2⟩ := h2 i v w hb hw
  refine ⟨hid2.trans hid1, hlab2.trans hlab1, ?_⟩
  intro hud
  rw [hkeep1 hud] at hkeep2
  exact hkeep2 hud

theorem keepsDraggedPos_trans (d : String) (a b c : List ConceptNode)
    (h1 : KeepsDraggedPos d a b) (h2 : KeepsDraggedPos d b c) :
    KeepsDraggedPos d a c := by
  obtain ⟨hl1, h1⟩ := h1
  obtain ⟨hl2, h2⟩ := h2
  refine ⟨hl1.trans hl2, ?_⟩
  intro i u w hu hw
  rcases hb : b[i]? with _ | v
  · have hlen := List.getElem?_eq_none_iff.1 hb
    have := (List.getElem?_eq_some_iff.1 hu).1
    omega
  obtain ⟨hid1, hlab1, hkeep1⟩ := h1 i u v hu hb
  obtain ⟨hid2, hlab2, hkeep2⟩ := h2 i v w hb hw
  refine ⟨hid2.trans hid1, hlab2.trans hlab1, ?_⟩
  intro hud
  obtain ⟨hx1, hy1⟩ := hkeep1 hud
  obtain ⟨hx2, hy2⟩ := hkeep2 (by rw [hid1]; exact hud)
  exact ⟨hx2.trans hx1, hy2.trans hy1⟩

theorem keepsDragged_set (d : String) (ns : List ConceptNode) (idx : ℕ)
    (u w : ConceptNode) (hu : ns[idx]? = some u)
    (hid : w.id = u.id) (hlab : w.label = u.label) (hnd : ¬u.id = d) :
    KeepsDragged d ns (ns.set idx w) := by
  refine ⟨by simp, ?_⟩
  intro i a b ha hb
  by_cases hix : idx = i
  · subst hix
    rw [List.getElem?_set_self (List.getElem?_eq_some_iff.1 hu).1] at hb
    cases hb
    rw [hu] at ha
    cases ha
    exact ⟨hid, hlab, fun hc => absurd hc hnd⟩
  · rw [List.getElem?_set_ne hix, ha] at hb
    cases hb
    exact ⟨rfl, rfl, fun _ => rfl⟩

theorem keepsDraggedPos_set (d : String) (ns : List ConceptNode) (idx : ℕ)
    (u w : ConceptNode) (hu : ns[idx]? = some u)
    (hid : w.id = u.id) (hlab : w.label = u.label)
    (hpos : u.id = d → w.x = u.x ∧ w.y = u.y) :
    KeepsDraggedPos d ns (ns.set idx w) := by
  refine ⟨by simp, ?_⟩
  intro i a b ha hb
  by_cases hix : idx = i
  · subst hix
    rw [List.getElem?_set_self (List.getElem?_eq_some_iff.1 hu).1] at hb
    cases hb
    rw [hu] at ha
    cases ha
    exact ⟨hid, hlab, hpos⟩
  · rw [List.getElem?_set_ne hix, ha] at hb
    cases hb
    exact ⟨rfl, rfl, fun _ => ⟨rfl, rfl⟩⟩

/-- Chaining a fold whose every step respects a reflexive transitive
relation. -/
theorem foldl_rel {α β : Type} (R : α → α → Prop) (f : α → β → α)
    (l : List β) (init : α) (hrefl : R init init)
    (htrans : ∀ a b c, R a b → R b c → R a c)
    (hstep : ∀ acc b, b ∈ l → R acc (f acc b)) :
    R init (l.foldl f init) := by
  refine foldl_induction f l init (fun acc => R init acc) hrefl ?_
  intro acc b hb h
  exact htrans _ _ _ h (hstep acc b hb)

/-- The repulsion pair step keeps the dragged node's record. -/
theorem repelStep_keeps (d : String) (ns : List ConceptNode) (i j : ℕ)
    (hij : i ≠ j) : KeepsDragged d ns (repelStep (some d) ns i j) := by
  unfold repelStep
  rcases hi : ns[i]? with _ | u
  · exact keepsDragged_refl d ns
  rcases hj : ns[j]? with _ | v
  · exact keepsDragged_refl d ns
  dsimp only
  by_cases hu : some u.id = some d
  · rw [if_pos hu]
    by_cases hv : some v.id = some d
    · rw [if_pos hv]; exact keepsDragged_refl d ns
    · rw [if_neg hv]
      exact keepsDragged_set d ns j v _ hj rfl rfl
        (fun hc => hv (by rw [hc]))
  · rw [if_neg hu]
    have k1 : KeepsDragged d ns
        (ns.set i { u with vx := u.vx + (repelForce u v).1 * 0.05,
                           vy := u.vy + (repelForce u v).2 * 0.05 }) :=
      keepsDragged_set d ns i u _ hi rfl rfl (fun hc => hu (by rw [hc]))
    by_cases hv : some v.id = some d
    · rw [if_pos hv]; exact k1
    · rw [if_neg hv]
      refine keepsDragged_trans d _ _ _ k1 ?_
      refine keepsDragged_set d _ j v _ ?_ rfl rfl
        (fun hc => hv (by rw [hc]))
      rw [List.getElem?_set_ne hij]
      exact hj

/-- The centering step keeps the dragged node's record. -/
theorem centerStep_keeps (width height : ℝ) (d : String)
    (ns : List ConceptNode) (i : ℕ) :
    KeepsDragged d ns (centerStep width height (some d) ns i) := by
  unfold centerStep
  rcases hi : ns[i]? with _ | u
  · exact keepsDragged_refl d ns
  dsimp only
  by_cases hu : some u.id = some d
  · rw [if_pos hu]; exact keepsDragged_refl d ns
  · rw [if_neg hu]
    exact keepsDragged_set d ns i u _ hi rfl rfl (fun hc => hu (by rw [hc]))

/-- The spring step keeps the dragged node's record. -/
theorem springStep_keeps (d : String) (ns : List ConceptNode)
    (link : ConceptLink) :
    KeepsDragged d ns (springStep (some d) ns link) := by
  unfold springStep
  rcases hsi : ns.findIdx? (fun n => n.label == link.source) with _ | si
  · rw [hsi]; exact keepsDragged_refl d ns
  rw [hsi]
  rcases hti : ns.findIdx? (fun n => n.label == link.target) with _ | ti
  · rw [hti]; exact keepsDragged_refl d ns
  rw [hti]
  dsimp only
  rcases hs : ns[si]? with _ | source
  · exact keepsDragged_refl d ns
  rcases ht : ns[ti]? with _ | target
  · exact keepsDragged_refl d ns
  dsimp only
  by_cases hsrc : some source.id = some d
  · rw [if_pos hsrc]
    rw [ht]
    dsimp only
    by_cases htgt : some target.id = some d
    · rw [if_pos htgt]; exact keepsDragged_refl d ns
    · rw [if_neg htgt]
      exact keepsDragged_set d ns ti target _ ht rfl rfl
        (fun hc => htgt (by rw [hc]))
  · rw [if_neg hsrc]
    have k1 : KeepsDragged d ns
        (ns.set si { source with
          vx := source.vx + (springForce source target).1,
          vy := source.vy + (springForce source target).2 }) :=
      keepsDragged_set d ns si source _ hs rfl rfl
        (fun hc => hsrc (by rw [hc]))
    rcases ht1 : (ns.set si { source with
        vx := source.vx + (springForce source target).1,
        vy := source.vy + (springForce source target).2 })[ti]?
      with _ | target1
    · exact k1
    · dsimp only
      by_cases ht1d : some target1.id = some d
      · rw [if_pos ht1d]; exact k1
      · rw [if_neg ht1d]
        refine keepsDragged_trans d _ _ _ k1 ?_
        exact keepsDragged_set d _ ti target1 _ ht1 rfl rfl
          (fun hc => ht1d (by rw [hc]))

/-- The collision pair step keeps the dragged node's position. -/
theorem collideStep_keepsPos (d : String) (ns : List ConceptNode)
    (i j : ℕ) (hij : i ≠ j) :
    KeepsDraggedPos d ns (collideStep (some d) ns i j) := by
  unfold collideStep
  rcases hi : ns[i]? with _ | u
  · exact keepsDraggedPos_refl d ns
  rcases hj : ns[j]? with _ | v
  · exact keepsDraggedPos_refl d ns
  dsimp only
  by_cases hov : |u.x - v.x| < minW u v ∧ |u.y - v.y| < minH u v
  · rw [if_pos hov]
    by_cases hbr : minW u v - |u.x - v.x| < minH u v - |u.y - v.y|
    · rw [if_pos hbr]
      have k1 : KeepsDraggedPos d ns (ns.set i { u with
          x := if some u.id = some d then u.x
            else u.x + (if u.x - v.x > 0 then (1 : ℝ) else -1) *
              ((minW u v - |u.x - v.x|) / 2),
          vx := u.vx * 0.1 }) := by
        refine keepsDraggedPos_set d ns i u _ hi rfl rfl ?_
        intro hd
        exact ⟨by rw [if_pos (by rw [hd])], rfl⟩
      refine keepsDraggedPos_trans d _ _ _ k1 ?_
      refine keepsDraggedPos_set d _ j v _ ?_ rfl rfl ?_
      · rw [List.getElem?_set_ne hij]; exact hj
      · intro hd
        exact ⟨by rw [if_pos (by rw [hd])], rfl⟩
    · rw [if_neg hbr]
      have k1 : KeepsDraggedPos d ns (ns.set i { u with
          y := if some u.id = some d then u.y
            else u.y + (if u.y - v.y > 0 then (1 : ℝ) else -1) *
              ((minH u v - |u.y - v.y|) / 2),
          vy := u.vy * 0.1 }) := by
        refine keepsDraggedPos_set d ns i u _ hi rfl rfl ?_
        intro hd
        exact ⟨rfl, by rw [if_pos (by rw [hd])]⟩
      refine keepsDraggedPos_trans d _ _ _ k1 ?_
      refine keepsDraggedPos_set d _ j v _ ?_ rfl rfl ?_
      · rw [List.getElem?_set_ne hij]; exact hj
      · intro hd
        exact ⟨rfl, by rw [if_pos (by rw [hd])]⟩
  · rw [if_neg hov]
    exact keepsDraggedPos_refl d ns

/-- Phase 1 keeps the dragged node's record. -/
theorem repulsionPhase_keeps (width height : ℝ) (d : String)
    (ns : List ConceptNode) :
    KeepsDragged d ns (repulsionPhase width height (some d) ns) := by
  unfold repulsionPhase
  refine foldl_rel (KeepsDragged d) _ _ _ (keepsDragged_refl d ns)
    (keepsDragged_trans d) ?_
  intro acc i _
  have hinner : KeepsDragged d acc ((List.range ns.length).foldl
      (fun acc2 j => if i < j then repelStep (some d) acc2 i j else acc2)
      acc) := by
    refine foldl_rel (KeepsDragged d) _ _ _ (keepsDragged_refl d acc)
      (keepsDragged_trans d) ?_
    intro acc2 j _
    by_cases hij : i < j
    · rw [if_pos hij]
      exact repelStep_keeps d acc2 i j (Nat.ne_of_lt hij)
    · rw [if_neg hij]
      exact keepsDragged_refl d acc2
  exact keepsDragged_trans d _ _ _ hinner
    (centerStep_keeps width height d _ i)

/-- Phase 2 keeps the dragged node's record. -/
theorem attractionPhase_keeps (d : String) (links : List ConceptLink)
    (ns : List ConceptNode) :
    KeepsDragged d ns (attractionPhase (some d) links ns) := by
  unfold attractionPhase
  refine foldl_rel (KeepsDragged d) _ _ _ (keepsDragged_refl d ns)
    (keepsDragged_trans d) ?_
  intro acc link _
  exact springStep_keeps d acc link

/-- Phase 3 keeps the dragged node's position. -/
theorem collisionPhase_keepsPos (d : String) (ns : List ConceptNode) :
    KeepsDraggedPos d ns (collisionPhase (some d) ns) := by
  unfold collisionPhase
  refine foldl_rel (KeepsDraggedPos d) _ _ _ (keepsDraggedPos_refl d ns)
    (keepsDraggedPos_trans d) ?_
  intro acc p _
  unfold collidePass
  refine foldl_rel (KeepsDraggedPos d) _ _ _ (keepsDraggedPos_refl d acc)
    (keepsDraggedPos_trans d) ?_
  intro acc1 i _
  refine foldl_rel (KeepsDraggedPos d) _ _ _ (keepsDraggedPos_refl d acc1)
    (keepsDraggedPos_trans d) ?_
  intro acc2 j _
  by_cases hij : i < j
  · rw [if_pos hij]
    exact collideStep_keepsPos d acc2 i j (Nat.ne_of_lt hij)
  · rw [if_neg hij]
    exact keepsDraggedPos_refl d acc2

/-- Phase 1 on a two-node list, unfolded. -/
theorem repulsionPhase_two (width height : ℝ) (d : Option String)
    (a b : ConceptNode) :
    repulsionPhase width height d [a, b] =
      centerStep width height d
        (centerStep width height d (repelStep d [a, b] 0 1) 0) 1 := rfl

/-- C7: while a node is dragged with a supplied pointer position, its tick
output is exactly the pointer position with zero velocity and unchanged id
and label; and the forces still act on the other nodes relative to the
pinned position, shown concretely: a node one unit right of the pinned node
receives the full repulsion and centering velocity. -/
theorem dragged_node_pinned :
    (∀ (links : List ConceptLink) (width height : ℝ) (d : String)
        (p : Point) (prev : List ConceptNode) (i : ℕ) (u : ConceptNode),
        prev[i]? = some u → u.id = d →
        ∃ n, (simulate links width height (some d) (some p) prev)[i]?
            = some n ∧
          n.x = p.x ∧ n.y = p.y ∧ n.vx = 0 ∧ n.vy = 0 ∧
          n.id = u.id ∧ n.label = u.label) ∧
    (repulsionPhase 800 600 (some "a")
        [{ id := "a", label := "a", x := 400, y := 300 },
         { id := "b", label := "b", x := 401, y := 300 }] =
      [{ id := "a", label := "a", x := 400, y := 300 },
       { id := "b", label := "b", x := 401, y := 300,
         vx := 24999.995, vy := 0 }]) := by
  constructor
  · intro links width height d p prev i u hu hid
    have k12 : KeepsDragged d prev
        (attractionPhase (some d) links
          (repulsionPhase width height (some d) prev)) :=
      keepsDragged_trans d _ _ _
        (repulsionPhase_keeps width height d prev)
        (attractionPhase_keeps d links _)
    have k3 : KeepsDraggedPos d prev
        (collisionPhase (some d)
          (attractionPhase (some d) links
            (repulsionPhase width height (some d) prev))) :=
      keepsDraggedPos_trans d _ _ _
        (keepsDraggedPos_of_keepsDragged k12)
        (collisionPhase_keepsPos d _)
    obtain ⟨hlen, hk⟩ := k3
    obtain ⟨hilt, -⟩ := List.getElem?_eq_some_iff.1 hu
    rcases hm : (collisionPhase (some d)
        (attractionPhase (some d) links
          (repulsionPhase width height (some d) prev)))[i]? with _ | m
    · have := List.getElem?_eq_none_iff.1 hm
      omega
    obtain ⟨hid3, hlab3, -⟩ := hk i u m hu hm
    have hupd : updateNode width height (some d) (some p) m =
        { m with x := p.x, y := p.y, vx := 0, vy := 0 } := by
      unfold updateNode
      dsimp only
      rw [if_pos (show some m.id = some d by rw [hid3, hid])]
    refine ⟨{ m with x := p.x, y := p.y, vx := 0, vy := 0 },
      ?_, rfl, rfl, rfl, rfl, hid3, hlab3⟩
    unfold simulate
    rw [List.getElem?_map, hm]
    simp [hupd]
  · have hforce : repelForce
        { id := "a", label := "a", x := 400, y := 300 }
        { id := "b", label := "b", x := 401, y := 300 } =
        ((-500000 : ℝ), 0) := by
      unfold repelForce repelDistSq k
      norm_num [Real.sqrt_one]
    have hall : repulsionPhase 800 600 (some "a")
        [{ id := "a", label := "a", x := 400, y := 300 },
         { id := "b", label := "b", x := 401, y := 300 }] =
        [{ id := "a", label := "a", x := 400, y := 300 },
         { id := "b", label := "b", x := 401, y := 300,
           vx := (0 - (repelForce
               { id := "a", label := "a", x := 400, y := 300 }
               { id := "b", label := "b", x := 401, y := 300 }).1 * 0.05)
             + (800 / 2 - 401) * 0.005,
           vy := (0 - (repelForce
               { id := "a", label := "a", x := 400, y := 300 }
               { id := "b", label := "b", x := 401, y := 300 }).2 * 0.05)
             + (600 / 2 - 300) * 0.005 }] := rfl
    rw [hall, hforce]
    norm_num

/-- C10: a node marked dragged with no supplied pointer position is not
pinned: it passes phases 1 and 2 with its record unchanged (no repulsion,
centering or spring velocity contribution), keeps its position through the
collision passes, and then undergoes exactly the same integration step
(damping, per-axis clamp, near-zero snap, position update, boundary clamp)
as an undragged node, since the final map applies the same
`integrateNode` to every node when the pointer position is absent. -/
theorem dragged_without_pointer_unpinned :
    (∀ (links : List ConceptLink) (width height : ℝ) (d : String)
        (prev : List ConceptNode) (i : ℕ) (u : ConceptNode),
        prev[i]? = some u → u.id = d →
        (attractionPhase (some d) links
            (repulsionPhase width height (some d) prev))[i]? = some u ∧
        ∃ m, (collisionPhase (some d)
              (attractionPhase (some d) links
                (repulsionPhase width height (some d) prev)))[i]? = some m ∧
          m.x = u.x ∧ m.y = u.y ∧ m.id = u.id ∧ m.label = u.label ∧
          (simulate links width height (some d) none prev)[i]?
            = some (integrateNode width height m)) ∧
    (∀ (width height : ℝ) (dN : Option String) (n : ConceptNode),
        updateNode width height dN none n = integrateNode width height n)
    := by
  constructor
  · intro links width height d prev i u hu hid
    have k12 : KeepsDragged d prev
        (attractionPhase (some d) links
          (repulsionPhase width height (some d) prev)) :=
      keepsDragged_trans d _ _ _
        (repulsionPhase_keeps width height d prev)
        (attractionPhase_keeps d links _)
    obtain ⟨hlen12, hk12⟩ := k12
    obtain ⟨hilt, -⟩ := List.getElem?_eq_some_iff.1 hu
    rcases hv : (attractionPhase (some d) links
        (repulsionPhase width height (some d) prev))[i]? with _ | v
    · have := List.getElem?_eq_none_iff.1 hv
      omega
    obtain ⟨-, -, hkeep⟩ := hk12 i u v hu hv
    have hvu : v = u := hkeep hid
    subst hvu
    refine ⟨rfl, ?_⟩
    have k3 := collisionPhase_keepsPos d
      (attractionPhase (some d) links
        (repulsionPhase width height (some d) prev))
    obtain ⟨hlen3, hk3⟩ := k3
    obtain ⟨hilt2, -⟩ := List.getElem?_eq_some_iff.1 hv
    rcases hm : (collisionPhase (some d)
        (attractionPhase (some d) links
          (repulsionPhase width height (some d) prev)))[i]? with _ | m
    · have := List.getElem?_eq_none_iff.1 hm
      omega
    obtain ⟨hid3, hlab3, hpos3⟩ := hk3 i v m hv hm
    obtain ⟨hx3, hy3⟩ := hpos3 hid
    refine ⟨m, rfl, hx3, hy3, hid3, hlab3, ?_⟩
    unfold simulate
    rw [List.getElem?_map, hm]
    rfl
  · intro width height dN n
    rfl

/-- C7 witness: the pinning theorem applied at a concrete tick. -/
theorem dragged_node_pinned_witness :
    ∃ n, (simulate [] 800 600 (some "a") (some { x := 70, y := 80 })
        [{ id := "a", label := "a", x := 400, y := 300 }])[0]? = some n ∧
      n.x = ({ x := 70, y := 80 } : Point).x ∧
      n.y = ({ x := 70, y := 80 } : Point).y ∧ n.vx = 0 ∧ n.vy = 0 ∧
      n.id = ({ id := "a", label := "a", x := 400, y := 300 } :
        ConceptNode).id ∧
      n.label = ({ id := "a", label := "a", x := 400, y := 300 } :
        ConceptNode).label :=
  dragged_node_pinned.1 [] 800 600 "a" { x := 70, y := 80 }
    [{ id := "a", label := "a", x := 400, y := 300 }] 0
    { id := "a", label := "a", x := 400, y := 300 } rfl rfl

/-- C10 witness: the unpinned-drag theorem applied at a concrete tick. -/
theorem dragged_without_pointer_unpinned_witness :
    (attractionPhase (some "a") []
        (repulsionPhase 800 600 (some "a")
          [{ id := "a", label := "a", x := 400, y := 300 }]))[0]? =
      some { id := "a", label := "a", x := 400, y := 300 } ∧
    ∃ m, (collisionPhase (some "a")
          (attractionPhase (some "a") []
            (repulsionPhase 800 600 (some "a")
              [{ id := "a", label := "a", x := 400, y := 300 }])))[0]?
        = some m ∧
      m.x = ({ id := "a", label := "a", x := 400, y := 300 } :
        ConceptNode).x ∧
      m.y = ({ id := "a", label := "a", x := 400, y := 300 } :
        ConceptNode).y ∧
      m.id = ({ id := "a", label := "a", x := 400, y := 300 } :
        ConceptNode).id ∧
      m.label = ({ id := "a", label := "a", x := 400, y := 300 } :
        ConceptNode).label ∧
      (simulate [] 800 600 (some "a") none
          [{ id := "a", label := "a", x := 400, y := 300 }])[0]?
        = some (integrateNode 800 600 m) :=
  dragged_without_pointer_unpinned.1 [] 800 600 "a"
    [{ id := "a", label := "a", x := 400, y := 300 }] 0
    { id := "a", label := "a", x := 400, y := 300 } rfl rfl

end ConceptMapCore
